import Mathlib

/-!
Verification of the consensus gossip synchronizer
(package `consensus`: `peer.doSync`, `peer.sync`, `syncer.OnReceive`,
`syncer.OnEngineStepChange`, `syncer.OnJoin/OnLeave/OnBlock/OnEnd/OnFailure`,
`syncer.Stop`) against its natural-language specification.

The synchronizer code is translated definition-by-definition below.  The
supporting types that the synchronizer uses but whose sources are not part of
the extract (`bitArray`, `step` constants, `peerRoundState` fields) are
modelled from the spec, as marked in their doc comments.
-/

set_option maxRecDepth 4000

/-- Modelled from the spec: the consensus `step` type.  The source file only
uses the ordering of `stepPropose`, `stepPrecommitWait` and `stepCommit`
(comparisons `>=` and `==` on the integer-valued constants); the spec says the
step progresses through propose / prevote / precommit / commit, with a
precommit-wait step before commit. -/
inductive Step where
  | propose
  | prevote
  | prevoteWait
  | precommit
  | precommitWait
  | commit
deriving DecidableEq, Repr

/-- Numeric value of a step, mirroring the integer constants the Go code
compares with `>=`. -/
def Step.idx : Step → Nat
  | .propose => 0
  | .prevote => 1
  | .prevoteWait => 2
  | .precommit => 3
  | .precommitWait => 4
  | .commit => 5

/-- Modelled from the spec: the `bitArray` type (component A, "Bit mask"): a
fixed-length bit vector with `set`, `get`, `copy`, `flip`, `and`,
`pick_random`.  `copy` is implicit in the pure embedding. -/
abbrev bitArray := List Bool

namespace bitArray

/-- Length of the bit vector. -/
def size (b : bitArray) : Nat := List.length b

/-- Modelled from the spec: `get(i)`; out-of-range reads are `false`. -/
def get : bitArray → Nat → Bool
  | [], _ => false
  | x :: _, 0 => x
  | _ :: xs, n + 1 => get xs n

/-- Modelled from the spec: `set(i)` sets bit `i`; out of range is a no-op. -/
def set : bitArray → Nat → bitArray
  | [], _ => []
  | _ :: xs, 0 => true :: xs
  | x :: xs, n + 1 => x :: set xs n

/-- Modelled from the spec: `flip()` complements every bit. -/
def flip (b : bitArray) : bitArray := List.map not b

/-- Modelled from the spec: `and(other)`, bitwise conjunction
(`AssignAnd` in the source's call sites). -/
def assignAnd (a b : bitArray) : bitArray := List.zipWith and a b

/-- Indices of the bits that are set. -/
def onesIdx (b : bitArray) : List Nat :=
  List.filter (fun i => get b i) (List.range (size b))

/-- Modelled from the spec: `pick_random()` returns an index whose bit is 1,
or −1 if there is none.  The random choice is supplied by the `oracle`
parameter; whichever value it takes, the result is a set bit. -/
def pickRandom (oracle : Nat) (b : bitArray) : Int :=
  if h : (onesIdx b).length = 0 then -1
  else Int.ofNat ((onesIdx b).get
    ⟨oracle % (onesIdx b).length, Nat.mod_lt oracle (Nat.pos_of_ne_zero h)⟩)

/-- Modelled from the spec: `newBitArray(n)` is the all-zero mask of size `n`
("initialize `P.block_parts_mask` to an empty mask sized to that block's part
set"). -/
def new (n : Nat) : bitArray := List.replicate n false

end bitArray

/-- Modelled from the spec: the peer round state (§3 "Peer round state"):
advertised height, round, the `sync` flag, and the masks of known block
parts (nullable), prevotes, and precommits.  Field names follow the Go
struct fields used in `peer.doSync`. -/
structure peerRoundState where
  Height : Int
  Round : Int
  Sync : Bool
  BlockPartsMask : Option bitArray
  PrevotesMask : bitArray
  PrecommitsMask : bitArray
deriving DecidableEq, Repr

/-- A part set as seen through the `PartSet` interface used by `doSync`:
`Parts()` (the part count), `GetMask()` (availability mask), and
`GetPart(i).Bytes()` (the part payload, abstracted to a token). -/
structure PartSet where
  parts : Nat
  mask : bitArray
  part : Nat → Nat

/-- Wire protocol tags registered by the syncer
(`protoBlockPart`, `protoRoundState`, `protoVoteList`). -/
inductive Proto where
  | blockPart
  | roundState
  | voteList
deriving DecidableEq, Repr

/-- The consensus messages built by `doSync`: a vote list (votes abstracted to
tokens), a block part (`Height`, `Index`, payload), or a round state.  The Go
`Index` field is a `uint16`, so the constructed index is reduced mod 2^16. -/
inductive message where
  | voteList (vl : List Nat)
  | blockPart (height : Int) (index : Nat) (blockPart : Nat)
  | roundState (prs : peerRoundState)
deriving DecidableEq, Repr

/-- The `Engine` interface as consumed by the synchronizer: current
height/round/step and the query methods of `peer.doSync`.  An arbitrary
engine; the synchronizer only reads it. -/
structure Engine where
  height : Int
  round : Int
  step : Step
  getCommitBlockParts : Int → PartSet
  getCommitPrecommits : Int → List Nat
  getPrecommits : Int → List Nat
  getVotes : Int → bitArray → bitArray → List Nat
  getRoundState : peerRoundState

/-- `configFastSyncThreshold = 4` from the source constants. -/
def configFastSyncThreshold : Int := 4

/-- `configSendBPS = -1` from the source constants. -/
def configSendBPS : Int := -1

/-- One `FetchBlocks` invocation: from-height, to-height (−1 = open-ended) and
the anchor block passed to the fast-sync manager. -/
structure FetchCall where
  fromHeight : Int
  toHeight : Int
  anchor : Nat
deriving DecidableEq, Repr

/-- The environment one `doSync` call reads: the engine, the block manager's
`GetBlockByHeight` (`none` = error), the fast-sync manager's `FetchBlocks`
(abstracted to return a cancel-handle token), and the randomness consumed by
`pickRandom`. -/
structure DoSyncEnv where
  engine : Engine
  getBlockByHeight : Int → Option Nat
  fetchBlocks : Int → Int → Nat → Nat
  oracle : Nat

/-- Result of one `doSync` call: the selected message (with its protocol tag),
the peer round state after the call, the fast-sync cancel handle after the
call, the list of `FetchBlocks` invocations made, and — as an observation of
the block-part branch — the (height, part index) of the block part fetched
with `GetPart`, before the `uint16` conversion of the wire index. -/
structure DoSyncRes where
  msg : Option (Proto × message)
  prs : Option peerRoundState
  fetchCanceler : Option Nat
  fetchCalls : List FetchCall
  sentPart : Option (Int × Nat)

/-- The block-part stanza of `peer.doSync` (source lines 339–354): flip a copy
of `BlockPartsMask`, intersect with the part set's availability mask, pick a
random set bit; if none, send nothing; otherwise send that part and set its
bit in `BlockPartsMask`. -/
def doSyncBP (env : DoSyncEnv) (p : peerRoundState) (bpm : bitArray)
    (fc : Option Nat) : DoSyncRes :=
  let partSet := env.engine.getCommitBlockParts p.Height
  let mask := bitArray.assignAnd (bitArray.flip bpm) partSet.mask
  let idx := bitArray.pickRandom env.oracle mask
  if idx < 0 then ⟨none, some p, fc, [], none⟩
  else
    ⟨some (Proto.blockPart,
        message.blockPart p.Height (idx.toNat % 65536) (partSet.part idx.toNat)),
     some { p with BlockPartsMask := some (bitArray.set bpm idx.toNat) },
     fc, [], some (p.Height, idx.toNat)⟩

/-- Translation of `peer.doSync` (source lines 318–401).  `prs0` is the peer's
current round state (`nil` = `none`), `fc` the syncer's `fetchCanceler`. -/
def doSync (env : DoSyncEnv) :
    Option peerRoundState → Option Nat → DoSyncRes
  | none, fc => ⟨none, none, fc, [], none⟩
  | some p, fc =>
    if p.Sync = false then ⟨none, some p, fc, [], none⟩
    else if p.Height < env.engine.height ∨
        (p.Height = env.engine.height ∧ Step.commit.idx ≤ env.engine.step.idx) then
      match p.BlockPartsMask with
      | none =>
        ⟨some (Proto.voteList,
            message.voteList (env.engine.getCommitPrecommits p.Height)),
         some { p with BlockPartsMask := some (bitArray.new (env.engine.getCommitBlockParts p.Height).parts) },
         fc, [], none⟩
      | some bpm => doSyncBP env p bpm fc
    else if env.engine.height < p.Height then
      if env.engine.height + configFastSyncThreshold < p.Height ∧ fc = none then
        match env.getBlockByHeight (env.engine.height - 1) with
        | none => ⟨none, some p, fc, [], none⟩
        | some blk =>
          ⟨none, some p, some (env.fetchBlocks env.engine.height (-1) blk),
           [⟨env.engine.height, -1, blk⟩], none⟩
      else ⟨none, some p, fc, [], none⟩
    else if p.Round < env.engine.round ∧
        Step.precommitWait.idx ≤ env.engine.step.idx then
      ⟨some (Proto.voteList,
          message.voteList (env.engine.getPrecommits env.engine.round)),
       none, fc, [], none⟩
    else if p.Round < env.engine.round then
      ⟨some (Proto.voteList,
          message.voteList (env.engine.getPrecommits (env.engine.round - 1))),
       none, fc, [], none⟩
    else if p.Round = env.engine.round then
      if 0 < (env.engine.getVotes env.engine.round
          (bitArray.flip p.PrevotesMask) (bitArray.flip p.PrecommitsMask)).length then
        ⟨some (Proto.voteList,
            message.voteList (env.engine.getVotes env.engine.round
              (bitArray.flip p.PrevotesMask) (bitArray.flip p.PrecommitsMask))),
         none, fc, [], none⟩
      else ⟨none, some p, fc, [], none⟩
    else ⟨none, some p, fc, [], none⟩

/-- A run of consecutive `doSync` calls on one peer between two RoundState
updates: each call sees an arbitrary environment (engine view, randomness),
and the peer round state and fetch-cancel handle are threaded from call to
call, exactly as `peer.sync` does between `setRoundState` events. -/
def syncTrace (envs : List DoSyncEnv) (prs : Option peerRoundState)
    (fc : Option Nat) : List DoSyncRes :=
  match envs with
  | [] => []
  | env :: rest =>
    let r := doSync env prs fc
    r :: syncTrace rest r.prs r.fetchCanceler

/-- Invariant used to show a block part is not sent twice: whenever the round
state is present with height `h`, its block-parts mask is present and already
has bit `i` set. -/
def maskDone (s : Option peerRoundState) (h : Int) (i : Nat) : Prop :=
  ∀ P, s = some P → P.Height = h →
    ∃ m, P.BlockPartsMask = some m ∧ bitArray.get m i = true

/-- A peer record as the syncer holds it: identity, the latest advertised
round state (`nil` until the first RoundState message), and the running flag.
The wakeup and done channels are scheduling artifacts with no observable
state. -/
structure peerRec where
  id : Nat
  prs : Option peerRoundState
  running : Bool
deriving DecidableEq, Repr

/-- `newPeer`: a fresh record with no round state, running. -/
def newPeer (id : Nat) : peerRec := ⟨id, none, true⟩

/-- The syncer's observable state: running flag, peer list, broadcast-timer
handle (a token; `none` = no timer), the last-broadcast timestamp, and the
fast-sync cancel handle. -/
structure syncerState where
  running : Bool
  peers : List peerRec
  timer : Option Nat
  lastSendTime : Int
  fetchCanceler : Option Nat
deriving DecidableEq, Repr

/-- The effect of one `peer.doSync` call on the whole syncer state: the method
writes through `p.peerRoundState` (peer `i`'s round state, including its
block-parts mask) and `p.syncer.fetchCanceler`, and reads everything else. -/
def doSyncFull (env : DoSyncEnv) (s : syncerState) (i : Nat) : syncerState :=
  match s.peers[i]? with
  | none => s
  | some p =>
    { s with
      peers := s.peers.set i { p with prs := (doSync env p.prs s.fetchCanceler).prs },
      fetchCanceler := (doSync env p.prs s.fetchCanceler).fetchCanceler }

/-- Translation of `syncer.OnEngineStepChange` (source lines 642–657): when
running, the peers whose round state is present are woken if the step is
precommit-wait or commit, and a RoundState broadcast is made if the step is
propose or commit.  Result: (ids of woken peers, whether a broadcast
happened). -/
def OnEngineStepChange (s : syncerState) (step : Step) : List Nat × Bool :=
  if s.running = false then ([], false)
  else
    ((if step = Step.precommitWait ∨ step = Step.commit then
        (s.peers.filter (fun p => p.prs.isSome)).map (fun p => p.id)
      else []),
     decide (step = Step.propose ∨ step = Step.commit))

/-- An inbound message after decoding, as dispatched by `OnReceive`'s type
switch; `other` covers message types the switch logs and ignores. -/
inductive recvMsg where
  | blockPart (height : Int) (index : Nat) (payload : Nat)
  | roundState (prs : peerRoundState)
  | voteList (votes : List Nat)
  | other
deriving DecidableEq, Repr

/-- Environment of one `OnReceive` call: the decode result of the received
bytes (`unmarshalMessage`), the `verify()` result, the sender id, the
engine's height, and the engine's two receive methods as transformers of an
abstract engine state (result: new engine state, index, error). -/
structure RecvEnv where
  decoded : Except Nat recvMsg
  verify : recvMsg → Option Nat
  sender : Nat
  engineHeight : Int
  receiveBlockPartMessage : Nat → Int → Nat → Nat → Nat × Int × Option Nat
  receiveVoteMessage : Nat → Nat → Nat × Int × Option Nat

/-- Result of `OnReceive`: syncer state, engine state, ids of woken peers,
and the (bool, error) return pair. -/
structure RecvRes where
  st : syncerState
  eng : Nat
  woken : List Nat
  ok : Bool
  err : Option Nat
deriving DecidableEq, Repr

/-- Translation of `syncer.OnReceive` (source lines 531–582). -/
def OnReceive (env : RecvEnv) (s : syncerState) (eng : Nat) : RecvRes :=
  if s.running = false then ⟨s, eng, [], false, none⟩
  else
    match env.decoded with
    | .error e => ⟨s, eng, [], false, some e⟩
    | .ok m =>
      match env.verify m with
      | some e => ⟨s, eng, [], false, some e⟩
      | none =>
        match m with
        | .blockPart h idx payload =>
          match env.receiveBlockPartMessage eng h idx payload with
          | (eng2, ridx, err) =>
            if ridx < 0 ∧ err ≠ none then ⟨s, eng2, [], false, err⟩
            else
              match err with
              | some e =>
                ⟨s, eng2, (s.peers.filter (fun p =>
                    match p.prs with
                    | some q => decide (q.Height = h) &&
                        decide (q.Height = env.engineHeight) &&
                        q.BlockPartsMask.isSome
                    | none => false)).map (fun p => p.id), false, some e⟩
              | none =>
                ⟨s, eng2, (s.peers.filter (fun p =>
                    match p.prs with
                    | some q => decide (q.Height = h) &&
                        decide (q.Height = env.engineHeight) &&
                        q.BlockPartsMask.isSome
                    | none => false)).map (fun p => p.id), true, none⟩
        | .roundState q =>
          ⟨{ s with peers := s.peers.map (fun p =>
              if p.id = env.sender then { p with prs := some q } else p) },
           eng,
           (s.peers.filter (fun p => decide (p.id = env.sender))).map (fun p => p.id),
           true, none⟩
        | .voteList vs =>
          ⟨s, vs.foldl (fun acc v => (env.receiveVoteMessage acc v).1) eng,
           [], true, none⟩
        | .other => ⟨s, eng, [], true, none⟩

/-- Translation of `syncer.OnFailure` (source lines 584–597): it only logs;
no state is touched whether running or not. -/
def OnFailure (s : syncerState) : syncerState := s

/-- Translation of `syncer.OnJoin` (source lines 599–618): when running and
the id is new, append a fresh peer record; the second component records the
target of the RoundState unicast to the newcomer. -/
def OnJoin (s : syncerState) (id : Nat) : syncerState × List Nat :=
  if s.running = false then (s, [])
  else if s.peers.any (fun p => decide (p.id = id)) then (s, [])
  else ({ s with peers := s.peers ++ [newPeer id] }, [id])

/-- Translation of `syncer.OnLeave` (source lines 620–640): when running,
remove the first record with the given id by swap-and-pop. -/
def OnLeave (s : syncerState) (id : Nat) : syncerState :=
  if s.running = false then s
  else
    if s.peers.findIdx (fun p => decide (p.id = id)) < s.peers.length then
      { s with peers :=
          (s.peers.set (s.peers.findIdx (fun p => decide (p.id = id)))
            (s.peers.getD (s.peers.length - 1) (newPeer 0))).dropLast }
    else s

/-- Translation of `syncer.OnBlock` (source lines 720–730): when running,
deliver the block result to the engine (the delivery is recorded as the
second component). -/
def OnBlock (s : syncerState) (br : Nat) : syncerState × List Nat :=
  if s.running = false then (s, []) else (s, [br])

/-- Translation of `syncer.OnEnd` (source lines 732–742): when running, clear
the fetch cancel handle. -/
def OnEnd (s : syncerState) : syncerState :=
  if s.running = false then s else { s with fetchCanceler := none }

/-- Nanoseconds per second (`time.Second`). -/
def nsPerSec : Int := 1000000000

/-- Outcome of one iteration of the `peer.sync` loop: skipped (woken too
early), idle (`doSync` chose no message), or a send with the flag telling
whether the peer re-wakes itself immediately (rather than arming a timer). -/
inductive SendOutcome where
  | skipped
  | idle
  | sent (immediateWake : Bool)
deriving DecidableEq, Repr

/-- Translation of one iteration of the `peer.sync` loop after a wakeup
(source lines 418–458), restricted to its pacing state `nextSendTime` (in
nanoseconds; `none` = unset): skip if `now` is before the scheduled time;
clear the schedule on an idle iteration; after a send, a negative cap wakes
immediately with the schedule untouched, otherwise the schedule advances by
`second · len / cap` from the previous schedule (or from `now` if unset) and
a timer is armed unless the wait is not positive. -/
def peerSyncIter (sendBPS : Int) (nst : Option Int) (now : Int)
    (msgLen : Option Nat) : Option Int × SendOutcome :=
  if (match nst with | some t => decide (now < t) | none => false) = true then
    (nst, SendOutcome.skipped)
  else
    match msgLen with
    | none => (none, SendOutcome.idle)
    | some len =>
      if sendBPS < 0 then (nst, SendOutcome.sent true)
      else
        (some ((nst.getD now) + nsPerSec * (len : Int) / sendBPS),
         SendOutcome.sent
           (decide ((nst.getD now) + nsPerSec * (len : Int) / sendBPS - now ≤ 0)))

/-- Concrete engine for witnesses: height 10, round 0, step commit, a 3-part
commit block with all parts available. -/
def w1Engine : Engine where
  height := 10
  round := 0
  step := Step.commit
  getCommitBlockParts := fun _ => ⟨3, [true, true, true], fun i => 100 + i⟩
  getCommitPrecommits := fun _ => [7, 8]
  getPrecommits := fun _ => [1]
  getVotes := fun _ _ _ => []
  getRoundState := ⟨10, 0, true, none, [], []⟩

def w1Env : DoSyncEnv := ⟨w1Engine, fun _ => none, fun _ _ _ => 0, 0⟩

def w1P : peerRoundState := ⟨9, 0, true, none, [], []⟩

/-- Engine for the C2 witness: a single-part commit block at height 10. -/
def w2Engine : Engine where
  height := 10
  round := 0
  step := Step.commit
  getCommitBlockParts := fun _ => ⟨1, [true], fun i => 50 + i⟩
  getCommitPrecommits := fun _ => [3]
  getPrecommits := fun _ => []
  getVotes := fun _ _ _ => []
  getRoundState := ⟨10, 0, true, none, [], []⟩

def w2Env : DoSyncEnv := ⟨w2Engine, fun _ => none, fun _ _ _ => 0, 0⟩

def w2P : peerRoundState := ⟨10, 0, true, some [false], [], []⟩

/-- Engine for the C3 witness: engine at height 100, block 99 available. -/
def w3Engine : Engine where
  height := 100
  round := 0
  step := Step.propose
  getCommitBlockParts := fun _ => ⟨0, [], fun _ => 0⟩
  getCommitPrecommits := fun _ => []
  getPrecommits := fun _ => []
  getVotes := fun _ _ _ => []
  getRoundState := ⟨100, 0, true, none, [], []⟩

def w3Env : DoSyncEnv :=
  ⟨w3Engine, fun hh => if hh = 99 then some 99 else none, fun _ _ _ => 42, 0⟩

def w3P : peerRoundState := ⟨110, 0, true, none, [], []⟩

/-- Engine exhibiting the C4 counterexample: step commit, round 3. -/
def c4Engine : Engine where
  height := 5
  round := 3
  step := Step.commit
  getCommitBlockParts := fun _ => ⟨2, [true, true], fun i => i⟩
  getCommitPrecommits := fun _ => [99]
  getPrecommits := fun r => [r.toNat]
  getVotes := fun _ _ _ => []
  getRoundState := ⟨5, 3, true, none, [], []⟩

def c4Env : DoSyncEnv := ⟨c4Engine, fun _ => none, fun _ _ _ => 0, 0⟩

def c4P : peerRoundState := ⟨5, 1, true, none, [], []⟩

/-- Engine for the C4 amended witness: step precommit-wait, round 3. -/
def w4Engine : Engine where
  height := 5
  round := 3
  step := Step.precommitWait
  getCommitBlockParts := fun _ => ⟨0, [], fun _ => 0⟩
  getCommitPrecommits := fun _ => []
  getPrecommits := fun r => [r.toNat]
  getVotes := fun _ _ _ => []
  getRoundState := ⟨5, 3, true, none, [], []⟩

def w4Env : DoSyncEnv := ⟨w4Engine, fun _ => none, fun _ _ _ => 0, 0⟩

def w4P : peerRoundState := ⟨5, 1, true, none, [], []⟩

/-- Engine exhibiting the C5 counterexample: step commit, same height and
round as the peer, `GetVotes` empty. -/
def c5Engine : Engine where
  height := 7
  round := 2
  step := Step.commit
  getCommitBlockParts := fun _ => ⟨1, [true], fun i => i⟩
  getCommitPrecommits := fun _ => [55]
  getPrecommits := fun _ => []
  getVotes := fun _ _ _ => []
  getRoundState := ⟨7, 2, true, none, [], []⟩

def c5Env : DoSyncEnv := ⟨c5Engine, fun _ => none, fun _ _ _ => 0, 0⟩

def c5P : peerRoundState := ⟨7, 2, true, none, [false], [false]⟩

/-- Engine for the C5 amended witness: step prevote, `GetVotes` non-empty
when the flipped prevote mask has bit 0 set. -/
def w5Engine : Engine where
  height := 5
  round := 2
  step := Step.prevote
  getCommitBlockParts := fun _ => ⟨0, [], fun _ => 0⟩
  getCommitPrecommits := fun _ => []
  getPrecommits := fun _ => []
  getVotes := fun _ pv _ => if bitArray.get pv 0 then [1, 2] else []
  getRoundState := ⟨5, 2, true, none, [], []⟩

def w5Env : DoSyncEnv := ⟨w5Engine, fun _ => none, fun _ _ _ => 0, 0⟩

def w5P : peerRoundState := ⟨5, 2, true, none, [false], []⟩

/-- Syncer state exhibiting the C6 counterexample: one peer with no round
state yet. -/
def c6s : syncerState := ⟨true, [⟨0, none, true⟩], none, 0, none⟩

/-- Receive environment exhibiting the C7 counterexample: a decoded VoteList
of two votes, each of which the engine rejects. -/
def c7Env : RecvEnv where
  decoded := Except.ok (recvMsg.voteList [0, 1])
  verify := fun _ => none
  sender := 0
  engineHeight := 0
  receiveBlockPartMessage := fun e _ _ _ => (e, -1, some 1)
  receiveVoteMessage := fun e _ => (e + 1, -1, some 7)

def c7s : syncerState := ⟨true, [], none, 0, none⟩

/-- A stopped syncer state with non-trivial content, for the C9 witness. -/
def c9s : syncerState := ⟨false, [⟨3, none, true⟩], some 5, 77, some 9⟩

def c10s : syncerState :=
  ⟨true, [⟨1, some w2P, true⟩, ⟨2, none, true⟩], some 4, 55, none⟩

namespace bitArray

theorem size_set (b : bitArray) (i : Nat) : size (set b i) = size b := by
  induction b generalizing i with
  | nil => rfl
  | cons x xs ih =>
    cases i with
    | zero => rfl
    | succ n => simpa [set, size] using ih n

theorem get_set_self (b : bitArray) (i : Nat) (h : i < size b) :
    get (set b i) i = true := by
  induction b generalizing i with
  | nil => simp [size] at h
  | cons x xs ih =>
    cases i with
    | zero => rfl
    | succ n =>
      simp only [set, get]
      exact ih n (by simpa [size] using h)

theorem get_set_ne (b : bitArray) (i j : Nat) (h : i ≠ j) :
    get (set b i) j = get b j := by
  induction b generalizing i j with
  | nil => rfl
  | cons x xs ih =>
    cases i with
    | zero =>
      cases j with
      | zero => exact absurd rfl h
      | succ m => rfl
    | succ n =>
      cases j with
      | zero => rfl
      | succ m =>
        simp only [set, get]
        exact ih n m (by omega)

theorem size_flip (b : bitArray) : size (flip b) = size b := by
  simp [flip, size]

theorem get_flip (b : bitArray) (i : Nat) (h : i < size b) :
    get (flip b) i = ! get b i := by
  induction b generalizing i with
  | nil => simp [size] at h
  | cons x xs ih =>
    cases i with
    | zero => rfl
    | succ n =>
      simp only [flip, List.map, get]
      exact ih n (by simpa [size] using h)

theorem size_assignAnd (a b : bitArray) :
    size (assignAnd a b) = min (size a) (size b) := by
  simp [assignAnd, size]

theorem get_assignAnd (a b : bitArray) (i : Nat) :
    get (assignAnd a b) i = (get a i && get b i) := by
  induction a generalizing b i with
  | nil => simp [assignAnd, get]
  | cons x xs ih =>
    cases b with
    | nil => simp [assignAnd, get]
    | cons y ys =>
      cases i with
      | zero => rfl
      | succ n =>
        simp only [assignAnd, List.zipWith, get]
        exact ih ys n

theorem mem_onesIdx (b : bitArray) (j : Nat) :
    j ∈ onesIdx b ↔ j < size b ∧ get b j = true := by
  simp [onesIdx, List.mem_filter, List.mem_range, and_comm]

theorem pickRandom_spec (oracle : Nat) (b : bitArray) :
    pickRandom oracle b = -1 ∨
    ∃ j, pickRandom oracle b = Int.ofNat j ∧ j < size b ∧ get b j = true := by
  unfold pickRandom
  split
  · exact Or.inl rfl
  · right
    refine ⟨_, rfl, ?_⟩
    exact (mem_onesIdx b _).mp (List.get_mem _ _ _)

theorem size_new (n : Nat) : size (new n) = n := by
  simp [new, size]

theorem get_new (n i : Nat) : get (new n) i = false := by
  induction n generalizing i with
  | zero => rfl
  | succ m ih =>
    cases i with
    | zero => rfl
    | succ k => simpa [new, List.replicate, get] using ih k

end bitArray

theorem getD_set_of_ne {α : Type} (l : List α) (i j : Nat) (a d : α)
    (h : i ≠ j) : (l.set i a).getD j d = l.getD j d := by
  induction l generalizing i j with
  | nil => rfl
  | cons x xs ih =>
    cases i with
    | zero =>
      cases j with
      | zero => exact absurd rfl h
      | succ m => simp [List.set]
    | succ n =>
      cases j with
      | zero => simp [List.set]
      | succ m =>
        simp only [List.set, List.getD_cons_succ]
        exact ih n m (by omega)

theorem getD_set_self_of_lt {α : Type} (l : List α) (i : Nat) (a d : α)
    (h : i < l.length) : (l.set i a).getD i d = a := by
  induction l generalizing i with
  | nil => simp at h
  | cons x xs ih =>
    cases i with
    | zero => rfl
    | succ n =>
      simp only [List.set, List.getD_cons_succ]
      exact ih n (by simpa using h)

theorem getD_eq_of_getElem? {α : Type} (l : List α) (i : Nat) (a d : α)
    (h : l[i]? = some a) : l.getD i d = a := by
  induction l generalizing i with
  | nil => simp at h
  | cons x xs ih =>
    cases i with
    | zero =>
      simp only [List.getElem?_cons_zero, Option.some.injEq] at h
      simp [h]
    | succ n =>
      simp only [List.getElem?_cons_succ] at h
      simp only [List.getD_cons_succ]
      exact ih n h

theorem doSyncBP_cases (env : DoSyncEnv) (p : peerRoundState)
    (bpm : bitArray) (fc : Option Nat) :
    doSyncBP env p bpm fc = ⟨none, some p, fc, [], none⟩ ∨
    ∃ j, j < bitArray.size bpm ∧ bitArray.get bpm j = false ∧
      doSyncBP env p bpm fc =
        ⟨some (Proto.blockPart, message.blockPart p.Height (j % 65536)
            ((env.engine.getCommitBlockParts p.Height).part j)),
         some { p with BlockPartsMask := some (bitArray.set bpm j) },
         fc, [], some (p.Height, j)⟩ := by
  unfold doSyncBP
  rcases bitArray.pickRandom_spec env.oracle
      (bitArray.assignAnd (bitArray.flip bpm)
        (env.engine.getCommitBlockParts p.Height).mask) with hneg | ⟨j, hj, hlt, hget⟩
  · left
    simp [hneg]
  · right
    have hsz : j < bitArray.size bpm := by
      have := bitArray.size_assignAnd (bitArray.flip bpm)
        (env.engine.getCommitBlockParts p.Height).mask
      have hf := bitArray.size_flip bpm
      omega
    have hbit : bitArray.get bpm j = false := by
      have hand := bitArray.get_assignAnd (bitArray.flip bpm)
        (env.engine.getCommitBlockParts p.Height).mask j
      rw [hget] at hand
      have hflip : bitArray.get (bitArray.flip bpm) j = true := by
        cases hb : bitArray.get (bitArray.flip bpm) j with
        | false => rw [hb] at hand; simp at hand
        | true => rfl
      have := bitArray.get_flip bpm j hsz
      rw [hflip] at this
      cases hb : bitArray.get bpm j with
      | false => rfl
      | true => rw [hb] at this; simp at this
    refine ⟨j, hsz, hbit, ?_⟩
    have hnn : ¬ (Int.ofNat j < 0) := Int.not_lt.mpr (Int.ofNat_zero_le j)
    simp [hj, hnn, Int.toNat_ofNat]

theorem doSync_cases (env : DoSyncEnv) (s : Option peerRoundState)
    (fc : Option Nat) :
    ((doSync env s fc).sentPart = none ∧
      ((doSync env s fc).prs = none ∨ (doSync env s fc).prs = s ∨
       (∃ p n, s = some p ∧ p.BlockPartsMask = none ∧
         (doSync env s fc).prs =
           some { p with BlockPartsMask := some (bitArray.new n) }))) ∨
    (∃ p bpm j, s = some p ∧ p.BlockPartsMask = some bpm ∧
      j < bitArray.size bpm ∧ bitArray.get bpm j = false ∧
      (doSync env s fc).sentPart = some (p.Height, j) ∧
      (doSync env s fc).msg = some (Proto.blockPart,
        message.blockPart p.Height (j % 65536)
          ((env.engine.getCommitBlockParts p.Height).part j)) ∧
      (doSync env s fc).prs =
        some { p with BlockPartsMask := some (bitArray.set bpm j) }) := by
  cases s with
  | none => left; simp [doSync]
  | some p =>
    simp only [doSync]
    by_cases hs : p.Sync = false
    · rw [if_pos hs]
      exact Or.inl ⟨rfl, Or.inr (Or.inl rfl)⟩
    · rw [if_neg hs]
      by_cases hb : p.Height < env.engine.height ∨
          (p.Height = env.engine.height ∧ Step.commit.idx ≤ env.engine.step.idx)
      · rw [if_pos hb]
        cases hm : p.BlockPartsMask with
        | none =>
          exact Or.inl ⟨rfl, Or.inr (Or.inr ⟨p, _, rfl, hm, rfl⟩)⟩
        | some bpm =>
          rcases doSyncBP_cases env p bpm fc with hc | ⟨j, hjs, hjb, hc⟩
          · refine Or.inl ⟨?_, Or.inr (Or.inl ?_)⟩
            · show (doSyncBP env p bpm fc).sentPart = none
              rw [hc]
            · show (doSyncBP env p bpm fc).prs = some p
              rw [hc]
          · right
            refine ⟨p, bpm, j, rfl, hm, hjs, hjb, ?_, ?_, ?_⟩
            · show (doSyncBP env p bpm fc).sentPart = some (p.Height, j)
              rw [hc]
            · show (doSyncBP env p bpm fc).msg = some (Proto.blockPart,
                message.blockPart p.Height (j % 65536)
                  ((env.engine.getCommitBlockParts p.Height).part j))
              rw [hc]
            · show (doSyncBP env p bpm fc).prs =
                some { p with BlockPartsMask := some (bitArray.set bpm j) }
              rw [hc]
      · rw [if_neg hb]
        by_cases ha : env.engine.height < p.Height
        · rw [if_pos ha]
          by_cases hf : env.engine.height + configFastSyncThreshold < p.Height ∧
              fc = none
          · rw [if_pos hf]
            cases hg : env.getBlockByHeight (env.engine.height - 1) with
            | none => exact Or.inl ⟨rfl, Or.inr (Or.inl rfl)⟩
            | some blk => exact Or.inl ⟨rfl, Or.inr (Or.inl rfl)⟩
          · rw [if_neg hf]
            exact Or.inl ⟨rfl, Or.inr (Or.inl rfl)⟩
        · rw [if_neg ha]
          by_cases hr1 : p.Round < env.engine.round ∧
              Step.precommitWait.idx ≤ env.engine.step.idx
          · rw [if_pos hr1]
            exact Or.inl ⟨rfl, Or.inl rfl⟩
          · rw [if_neg hr1]
            by_cases hr2 : p.Round < env.engine.round
            · rw [if_pos hr2]
              exact Or.inl ⟨rfl, Or.inl rfl⟩
            · rw [if_neg hr2]
              by_cases hr3 : p.Round = env.engine.round
              · rw [if_pos hr3]
                by_cases hv : 0 < (env.engine.getVotes env.engine.round
                    (bitArray.flip p.PrevotesMask)
                    (bitArray.flip p.PrecommitsMask)).length
                · rw [if_pos hv]
                  exact Or.inl ⟨rfl, Or.inl rfl⟩
                · rw [if_neg hv]
                  exact Or.inl ⟨rfl, Or.inr (Or.inl rfl)⟩
              · rw [if_neg hr3]
                exact Or.inl ⟨rfl, Or.inr (Or.inl rfl)⟩

theorem doSync_emit_msg (env : DoSyncEnv) (s : Option peerRoundState)
    (fc : Option Nat) (h : Int) (i : Nat)
    (hE : (doSync env s fc).sentPart = some (h, i)) :
    ∃ pt, (doSync env s fc).msg =
      some (Proto.blockPart, message.blockPart h (i % 65536) pt) := by
  rcases doSync_cases env s fc with ⟨hn, -⟩ |
    ⟨p, bpm, j, hsome, hm, hjs, hjb, hsp, hmsg, hprs⟩
  · rw [hn] at hE; cases hE
  · rw [hsp] at hE
    simp only [Option.some.injEq, Prod.mk.injEq] at hE
    obtain ⟨hh, hi⟩ := hE
    subst hh; subst hi
    exact ⟨_, hmsg⟩

theorem doSync_emit_done (env : DoSyncEnv) (s : Option peerRoundState)
    (fc : Option Nat) (h : Int) (i : Nat)
    (hE : (doSync env s fc).sentPart = some (h, i)) :
    maskDone (doSync env s fc).prs h i := by
  rcases doSync_cases env s fc with ⟨hn, -⟩ |
    ⟨p, bpm, j, hsome, hm, hjs, hjb, hsp, hmsg, hprs⟩
  · rw [hn] at hE; cases hE
  · rw [hsp] at hE
    simp only [Option.some.injEq, Prod.mk.injEq] at hE
    obtain ⟨hh, hi⟩ := hE
    subst hh; subst hi
    intro P hP hH
    rw [hprs] at hP
    injection hP with hP
    subst hP
    exact ⟨bitArray.set bpm j, rfl, bitArray.get_set_self bpm j hjs⟩

theorem doSync_done_step (env : DoSyncEnv) (s : Option peerRoundState)
    (fc : Option Nat) (h : Int) (i : Nat) (hD : maskDone s h i) :
    (doSync env s fc).sentPart ≠ some (h, i) ∧
    maskDone (doSync env s fc).prs h i := by
  rcases doSync_cases env s fc with ⟨hn, hp⟩ |
    ⟨p, bpm, j, hsome, hm, hjs, hjb, hsp, hmsg, hprs⟩
  · refine ⟨by rw [hn]; simp, ?_⟩
    rcases hp with hp | hp | ⟨q, n, hq, hqm, hp⟩
    · rw [hp]; intro P hP; cases hP
    · rw [hp]; exact hD
    · rw [hp]; intro P hP hH
      injection hP with hP
      subst hP
      obtain ⟨m, hm1, -⟩ := hD q hq hH
      rw [hqm] at hm1; cases hm1
  · have hD2 := hD p hsome
    constructor
    · intro hEq
      rw [hsp] at hEq
      simp only [Option.some.injEq, Prod.mk.injEq] at hEq
      obtain ⟨hh, hi⟩ := hEq
      obtain ⟨m, hm1, hm2⟩ := hD2 hh
      rw [hm] at hm1
      injection hm1 with hm1
      subst hm1
      rw [hi] at hjb
      rw [hjb] at hm2
      cases hm2
    · intro P hP hH
      rw [hprs] at hP
      injection hP with hP
      subst hP
      obtain ⟨m, hm1, hm2⟩ := hD2 hH
      rw [hm] at hm1
      injection hm1 with hm1
      subst hm1
      have hji : j ≠ i := by
        intro he
        rw [he] at hjb
        rw [hjb] at hm2
        cases hm2
      exact ⟨bitArray.set bpm j, rfl,
        by rw [bitArray.get_set_ne bpm j i hji]; exact hm2⟩

theorem trace_done (envs : List DoSyncEnv) (s : Option peerRoundState)
    (fc : Option Nat) (h : Int) (i : Nat) (hD : maskDone s h i) :
    List.countP (fun r => decide (r.sentPart = some (h, i)))
      (syncTrace envs s fc) = 0 := by
  induction envs generalizing s fc with
  | nil => rfl
  | cons env rest ih =>
    obtain ⟨hne, hD2⟩ := doSync_done_step env s fc h i hD
    simp [syncTrace, List.countP_cons, hne, ih _ _ hD2]

/-- C1: for a peer whose round state is present with `Sync` true, behind the
engine (`P.Height < H`, or `P.Height = H` with step ≥ commit), and with no
block-parts mask yet, `doSync` returns the VoteList of commit precommits for
`P.Height`, initializes the mask to the all-zero mask sized to the commit
block's part count, makes no fetch call and sends no block part. -/
theorem doSync_commit_precommit_phase (env : DoSyncEnv) (P : peerRoundState)
    (fc : Option Nat) (hSync : P.Sync = true)
    (hBehind : P.Height < env.engine.height ∨
      (P.Height = env.engine.height ∧ Step.commit.idx ≤ env.engine.step.idx))
    (hMask : P.BlockPartsMask = none) :
    doSync env (some P) fc =
      ⟨some (Proto.voteList,
          message.voteList (env.engine.getCommitPrecommits P.Height)),
       some { P with BlockPartsMask := some (bitArray.new (env.engine.getCommitBlockParts P.Height).parts) },
       fc, [], none⟩ := by
  simp only [doSync]
  rw [if_neg (by simp [hSync]), if_pos hBehind, hMask]

theorem doSync_commit_precommit_phase_witness :
    w1P.Sync = true ∧
    (w1P.Height < w1Env.engine.height ∨
      (w1P.Height = w1Env.engine.height ∧
        Step.commit.idx ≤ w1Env.engine.step.idx)) ∧
    w1P.BlockPartsMask = none ∧
    doSync w1Env (some w1P) none =
      ⟨some (Proto.voteList,
          message.voteList (w1Env.engine.getCommitPrecommits w1P.Height)),
       some { w1P with BlockPartsMask := some (bitArray.new (w1Env.engine.getCommitBlockParts w1P.Height).parts) },
       none, [], none⟩ :=
  ⟨rfl, Or.inl (by decide), rfl,
   doSync_commit_precommit_phase w1Env w1P none rfl (Or.inl (by decide)) rfl⟩

/-- C2: along any run of consecutive `doSync` calls between two RoundState
updates of a peer (arbitrary engine views and randomness at each call), a
given block part `(h, i)` is sent at most once; and whenever the part pick
`(h, i)` occurs, the message of that call is the corresponding BlockPart. -/
theorem blockPart_sent_at_most_once (envs : List DoSyncEnv)
    (s : Option peerRoundState) (fc : Option Nat) (h : Int) (i : Nat) :
    List.countP (fun r => decide (r.sentPart = some (h, i)))
      (syncTrace envs s fc) ≤ 1 ∧
    ∀ r ∈ syncTrace envs s fc, r.sentPart = some (h, i) →
      ∃ pt, r.msg = some (Proto.blockPart,
        message.blockPart h (i % 65536) pt) := by
  constructor
  · induction envs generalizing s fc with
    | nil => simp [syncTrace]
    | cons env rest ih =>
      by_cases hE : (doSync env s fc).sentPart = some (h, i)
      · have h0 := trace_done rest (doSync env s fc).prs
          (doSync env s fc).fetchCanceler h i (doSync_emit_done env s fc h i hE)
        simp [syncTrace, List.countP_cons, hE, h0]
      · simp only [syncTrace]
        simp [List.countP_cons, hE]
        exact ih _ _
  · induction envs generalizing s fc with
    | nil => intro r hr; simp [syncTrace] at hr
    | cons env rest ih =>
      intro r hr hsp
      simp [syncTrace, List.mem_cons] at hr
      rcases hr with hr | hr
      · subst hr; exact doSync_emit_msg env s fc h i hsp
      · exact ih (doSync env s fc).prs (doSync env s fc).fetchCanceler r hr hsp

theorem blockPart_sent_at_most_once_witness :
    List.countP (fun r => decide (r.sentPart = some ((10 : Int), 0)))
      (syncTrace [w2Env, w2Env] (some w2P) none) = 1 ∧
    List.countP (fun r => decide (r.sentPart = some ((10 : Int), 0)))
      (syncTrace [w2Env, w2Env] (some w2P) none) ≤ 1 :=
  ⟨by decide, (blockPart_sent_at_most_once [w2Env, w2Env] (some w2P) none 10 0).1⟩

/-- C3: for a peer that is ahead of the engine (`P.Height > H`), `doSync`
sends no message; and when additionally `P.Height > H + 4` with no outstanding
fetch and the block manager returns the block at `H − 1`, exactly one
`FetchBlocks(H, −1, that block)` call is made and its cancel handle is
stored. -/
theorem doSync_far_ahead_fastsync (env : DoSyncEnv) (P : peerRoundState)
    (fc : Option Nat) (hSync : P.Sync = true)
    (hAhead : env.engine.height < P.Height) :
    (doSync env (some P) fc).msg = none ∧
    (∀ blk, env.engine.height + configFastSyncThreshold < P.Height →
      fc = none →
      env.getBlockByHeight (env.engine.height - 1) = some blk →
      (doSync env (some P) fc).fetchCalls = [⟨env.engine.height, -1, blk⟩] ∧
      (doSync env (some P) fc).fetchCanceler =
        some (env.fetchBlocks env.engine.height (-1) blk)) := by
  have hnb : ¬ (P.Height < env.engine.height ∨
      (P.Height = env.engine.height ∧
        Step.commit.idx ≤ env.engine.step.idx)) := by
    rintro (hl | ⟨he, -⟩) <;> omega
  constructor
  · simp only [doSync]
    rw [if_neg (by simp [hSync]), if_neg hnb, if_pos hAhead]
    split
    · split <;> rfl
    · rfl
  · intro blk hthr hfc hblk
    simp only [doSync]
    rw [if_neg (by simp [hSync]), if_neg hnb, if_pos hAhead,
      if_pos ⟨hthr, hfc⟩, hblk]
    exact ⟨rfl, rfl⟩

theorem doSync_far_ahead_fastsync_witness :
    w3P.Sync = true ∧ w3Env.engine.height < w3P.Height ∧
    (doSync w3Env (some w3P) none).msg = none ∧
    (doSync w3Env (some w3P) none).fetchCalls = [⟨100, -1, 99⟩] ∧
    (doSync w3Env (some w3P) none).fetchCanceler = some 42 := by
  have hmain := doSync_far_ahead_fastsync w3Env w3P none rfl (by decide)
  have h2 := hmain.2 99 (by decide) rfl (by decide)
  exact ⟨rfl, by decide, hmain.1, by rw [h2.1]; decide, by rw [h2.2]; decide⟩

/-- C4 counterexample: a peer at the engine's height with an earlier round,
engine step commit (which is ≥ precommit-wait).  The claim predicts the
VoteList of `GetPrecommits(R)` with `P` cleared; the code instead runs the
commit stanza first, returns the commit precommits (here `[99]`, not
`GetPrecommits(3) = [3]`) and keeps `P` (with a freshly initialized
block-parts mask). -/
theorem doSync_earlier_round_cex :
    c4P.Height = c4Env.engine.height ∧ c4P.Round < c4Env.engine.round ∧
    Step.precommitWait.idx ≤ c4Env.engine.step.idx ∧
    ¬ ((doSync c4Env (some c4P) none).msg =
        some (Proto.voteList,
          message.voteList (c4Env.engine.getPrecommits c4Env.engine.round)) ∧
      (doSync c4Env (some c4P) none).prs = none) := by decide

/-- C4 (amended): for a peer at the engine's height with an earlier round,
provided the engine step is below commit (otherwise the commit stanza takes
precedence): if step ≥ precommit-wait the result is the VoteList of the
engine's precommits for the current round, else for the previous round; in
both cases `P` is cleared. -/
theorem doSync_earlier_round_votelist (env : DoSyncEnv) (P : peerRoundState)
    (fc : Option Nat) (hSync : P.Sync = true)
    (hH : P.Height = env.engine.height) (hR : P.Round < env.engine.round)
    (hStep : env.engine.step.idx < Step.commit.idx) :
    (Step.precommitWait.idx ≤ env.engine.step.idx →
      doSync env (some P) fc =
        ⟨some (Proto.voteList,
            message.voteList (env.engine.getPrecommits env.engine.round)),
         none, fc, [], none⟩) ∧
    (env.engine.step.idx < Step.precommitWait.idx →
      doSync env (some P) fc =
        ⟨some (Proto.voteList,
            message.voteList (env.engine.getPrecommits (env.engine.round - 1))),
         none, fc, [], none⟩) := by
  have hnb : ¬ (P.Height < env.engine.height ∨
      (P.Height = env.engine.height ∧
        Step.commit.idx ≤ env.engine.step.idx)) := by
    rintro (hl | ⟨-, hc⟩) <;> omega
  have hna : ¬ env.engine.height < P.Height := by omega
  constructor
  · intro hpw
    simp only [doSync]
    rw [if_neg (by simp [hSync]), if_neg hnb, if_neg hna, if_pos ⟨hR, hpw⟩]
  · intro hlt
    have hn1 : ¬ (P.Round < env.engine.round ∧
        Step.precommitWait.idx ≤ env.engine.step.idx) := by
      rintro ⟨-, hc⟩; omega
    simp only [doSync]
    rw [if_neg (by simp [hSync]), if_neg hnb, if_neg hna, if_neg hn1,
      if_pos hR]

theorem doSync_earlier_round_votelist_witness :
    w4P.Sync = true ∧ w4P.Height = w4Env.engine.height ∧
    w4P.Round < w4Env.engine.round ∧
    w4Env.engine.step.idx < Step.commit.idx ∧
    doSync w4Env (some w4P) none =
      ⟨some (Proto.voteList,
          message.voteList (w4Env.engine.getPrecommits w4Env.engine.round)),
       none, none, [], none⟩ :=
  ⟨rfl, rfl, by decide, by decide,
   (doSync_earlier_round_votelist w4Env w4P none rfl rfl (by decide)
     (by decide)).1 (by decide)⟩

/-- C5 counterexample: a peer at the engine's exact height and round, engine
step commit.  `GetVotes` with the flipped masks is empty, so the claim
predicts no message with `P` retained unchanged; the code instead runs the
commit stanza first, returning the commit-precommit VoteList and replacing
`P`'s block-parts mask. -/
theorem doSync_same_round_cex :
    c5P.Height = c5Env.engine.height ∧ c5P.Round = c5Env.engine.round ∧
    (c5Env.engine.getVotes c5Env.engine.round (bitArray.flip c5P.PrevotesMask)
      (bitArray.flip c5P.PrecommitsMask)).length = 0 ∧
    ¬ ((doSync c5Env (some c5P) none).msg = none ∧
      (doSync c5Env (some c5P) none).prs = some c5P) := by decide

/-- C5 (amended): for a peer at the engine's exact height and round, provided
the engine step is below commit (otherwise the commit stanza takes
precedence): `doSync` queries `GetVotes` with the flipped copies of the
peer's prevote and precommit masks; a non-empty result is returned as a
VoteList with `P` cleared, an empty result yields no message with `P`
retained unchanged. -/
theorem doSync_same_round_missing_votes (env : DoSyncEnv)
    (P : peerRoundState) (fc : Option Nat) (hSync : P.Sync = true)
    (hH : P.Height = env.engine.height) (hR : P.Round = env.engine.round)
    (hStep : env.engine.step.idx < Step.commit.idx) :
    (0 < (env.engine.getVotes env.engine.round (bitArray.flip P.PrevotesMask)
        (bitArray.flip P.PrecommitsMask)).length →
      doSync env (some P) fc =
        ⟨some (Proto.voteList,
            message.voteList (env.engine.getVotes env.engine.round
              (bitArray.flip P.PrevotesMask) (bitArray.flip P.PrecommitsMask))),
         none, fc, [], none⟩) ∧
    ((env.engine.getVotes env.engine.round (bitArray.flip P.PrevotesMask)
        (bitArray.flip P.PrecommitsMask)).length = 0 →
      doSync env (some P) fc = ⟨none, some P, fc, [], none⟩) := by
  have hnb : ¬ (P.Height < env.engine.height ∨
      (P.Height = env.engine.height ∧
        Step.commit.idx ≤ env.engine.step.idx)) := by
    rintro (hl | ⟨-, hc⟩) <;> omega
  have hna : ¬ env.engine.height < P.Height := by omega
  have hnr : ¬ P.Round < env.engine.round := by omega
  have hn1 : ¬ (P.Round < env.engine.round ∧
      Step.precommitWait.idx ≤ env.engine.step.idx) := by
    rintro ⟨hc, -⟩; exact hnr hc
  constructor
  · intro hv
    simp only [doSync]
    rw [if_neg (by simp [hSync]), if_neg hnb, if_neg hna, if_neg hn1,
      if_neg hnr, if_pos hR, if_pos hv]
  · intro hv
    have hnv : ¬ 0 < (env.engine.getVotes env.engine.round
        (bitArray.flip P.PrevotesMask)
        (bitArray.flip P.PrecommitsMask)).length := by omega
    simp only [doSync]
    rw [if_neg (by simp [hSync]), if_neg hnb, if_neg hna, if_neg hn1,
      if_neg hnr, if_pos hR, if_neg hnv]

theorem doSync_same_round_missing_votes_witness :
    w5P.Sync = true ∧ w5P.Height = w5Env.engine.height ∧
    w5P.Round = w5Env.engine.round ∧
    w5Env.engine.step.idx < Step.commit.idx ∧
    doSync w5Env (some w5P) none =
      ⟨some (Proto.voteList,
          message.voteList (w5Env.engine.getVotes w5Env.engine.round
            (bitArray.flip w5P.PrevotesMask)
            (bitArray.flip w5P.PrecommitsMask))),
       none, none, [], none⟩ :=
  ⟨rfl, rfl, rfl, by decide,
   (doSync_same_round_missing_votes w5Env w5P none rfl rfl rfl
     (by decide)).1 (by decide)⟩

/-- C6 counterexample: the engine reaches precommit-wait while a peer's round
state is absent; that peer is not woken (`OnEngineStepChange` wakes only
peers with `peerRoundState != nil`), so "wakes all peers" fails. -/
theorem onEngineStepChange_cex :
    c6s.running = true ∧ c6s.peers ≠ [] ∧
    ¬ (∀ p ∈ c6s.peers,
        p.id ∈ (OnEngineStepChange c6s Step.precommitWait).1) := by decide

/-- C6 (amended): when running, `OnEngineStepChange` wakes exactly the peers
whose round state is present if the step is precommit-wait or commit, wakes
nobody otherwise, and broadcasts a RoundState iff the step is propose or
commit. -/
theorem onEngineStepChange_behavior (s : syncerState) (step : Step)
    (hrun : s.running = true) :
    ((step = Step.precommitWait ∨ step = Step.commit) →
      (OnEngineStepChange s step).1 =
        (s.peers.filter (fun p => p.prs.isSome)).map (fun p => p.id)) ∧
    ((step ≠ Step.precommitWait ∧ step ≠ Step.commit) →
      (OnEngineStepChange s step).1 = []) ∧
    ((OnEngineStepChange s step).2 = true ↔
      (step = Step.propose ∨ step = Step.commit)) := by
  have hr : ¬ s.running = false := by simp [hrun]
  refine ⟨?_, ?_, ?_⟩
  · intro hw
    simp [OnEngineStepChange, hr, hw]
  · rintro ⟨h1, h2⟩
    simp [OnEngineStepChange, hr, h1, h2]
  · simp [OnEngineStepChange, hr]

theorem onEngineStepChange_behavior_witness :
    c6s.running = true ∧
    (OnEngineStepChange c6s Step.propose).2 = true ∧
    (OnEngineStepChange c6s Step.propose).1 = [] :=
  ⟨rfl,
   ((onEngineStepChange_behavior c6s Step.propose rfl).2.2).mpr (Or.inl rfl),
   (onEngineStepChange_behavior c6s Step.propose rfl).2.1 (by decide)⟩

/-- C7 counterexample: the engine rejects every vote of a two-vote VoteList
(`ReceiveVoteMessage` returns an error), yet `OnReceive` does not abort: both
votes are still delivered (the engine state advances from 0 to 2) and the
call returns success with no error, contradicting "aborts processing of that
message ... and returns the error". -/
theorem onReceive_vote_rejection_cex :
    (c7Env.receiveVoteMessage 0 0).2.2 = some 7 ∧
    OnReceive c7Env c7s 0 = ⟨c7s, 2, [], true, none⟩ := by decide

/-- C7 (amended): while running, decode and verification failures are
returned to the reactor with no change to the peer list or the engine; a
block part whose engine delivery returns a negative index together with an
error aborts with that error and wakes nobody; but rejected votes are
ignored: every vote of a VoteList is delivered to the engine in order and
`OnReceive` returns success with no error. -/
theorem onReceive_error_handling (env : RecvEnv) (s : syncerState)
    (eng : Nat) (hrun : s.running = true) :
    (∀ e, env.decoded = .error e →
      OnReceive env s eng = ⟨s, eng, [], false, some e⟩) ∧
    (∀ m e, env.decoded = .ok m → env.verify m = some e →
      OnReceive env s eng = ⟨s, eng, [], false, some e⟩) ∧
    (∀ h idx payload eng2 ridx e,
      env.decoded = .ok (recvMsg.blockPart h idx payload) →
      env.verify (recvMsg.blockPart h idx payload) = none →
      env.receiveBlockPartMessage eng h idx payload = (eng2, ridx, some e) →
      ridx < 0 →
      OnReceive env s eng = ⟨s, eng2, [], false, some e⟩) ∧
    (∀ vs, env.decoded = .ok (recvMsg.voteList vs) →
      env.verify (recvMsg.voteList vs) = none →
      OnReceive env s eng =
        ⟨s, vs.foldl (fun acc v => (env.receiveVoteMessage acc v).1) eng,
         [], true, none⟩) := by
  have hr : ¬ s.running = false := by simp [hrun]
  refine ⟨?_, ?_, ?_, ?_⟩
  · intro e hd
    simp [OnReceive, hr, hd]
  · intro m e hd hv
    simp [OnReceive, hr, hd, hv]
  · intro h idx payload eng2 ridx e hd hv hrecv hneg
    simp [OnReceive, hr, hd, hv, hrecv, hneg]
  · intro vs hd hv
    simp [OnReceive, hr, hd, hv]

theorem onReceive_error_handling_witness :
    c7s.running = true ∧
    OnReceive c7Env c7s 0 =
      ⟨c7s, [0, 1].foldl (fun acc v => (c7Env.receiveVoteMessage acc v).1) 0,
       [], true, none⟩ :=
  ⟨rfl, (onReceive_error_handling c7Env c7s 0 rfl).2.2.2 [0, 1] rfl rfl⟩

/-- C8 counterexample: cap 100 B/s, a schedule at t = 0, and a send of 100
bytes one second later (now = 1 s, a burst: now is past the schedule).  The
claim predicts the schedule resets to now before advancing, giving
now + 1 s = 2 s; the code advances from the old schedule: 0 + 1 s = 1 s. -/
theorem peerSyncIter_burst_cex :
    (peerSyncIter 100 (some 0) nsPerSec (some 100)).1 = some nsPerSec ∧
    (peerSyncIter 100 (some 0) nsPerSec (some 100)).1 ≠
      some (nsPerSec + nsPerSec * 100 / 100) := by decide

/-- C8 (amended): with a positive cap, a send of `len` bytes advances the
schedule by `second · len / cap` from the previous schedule when one is
recorded — even if `now` has already passed it — and from `now` when none is
recorded; a wakeup before the schedule is skipped; a negative cap leaves the
schedule untouched and re-wakes immediately after every send. -/
theorem peerSyncIter_pacing (sendBPS : Int) (nst : Option Int) (now : Int)
    (len : Nat) (hbps : 0 < sendBPS) :
    (∀ t, nst = some t → t ≤ now →
      peerSyncIter sendBPS nst now (some len) =
        (some (t + nsPerSec * (len : Int) / sendBPS),
         SendOutcome.sent
           (decide (t + nsPerSec * (len : Int) / sendBPS - now ≤ 0)))) ∧
    (nst = none →
      peerSyncIter sendBPS nst now (some len) =
        (some (now + nsPerSec * (len : Int) / sendBPS),
         SendOutcome.sent
           (decide (now + nsPerSec * (len : Int) / sendBPS - now ≤ 0)))) ∧
    (∀ t, nst = some t → now < t →
      peerSyncIter sendBPS nst now (some len) = (nst, SendOutcome.skipped)) ∧
    ((∀ t, nst = some t → t ≤ now) →
      peerSyncIter (-1) nst now (some len) = (nst, SendOutcome.sent true)) := by
  have hnn : ¬ sendBPS < 0 := by omega
  refine ⟨?_, ?_, ?_, ?_⟩
  · intro t ht hle
    subst ht
    have h1 : ¬ now < t := by omega
    simp [peerSyncIter, h1, hnn]
  · intro h
    subst h
    simp [peerSyncIter, hnn]
  · intro t ht hlt
    subst ht
    simp [peerSyncIter, hlt]
  · intro hle
    cases nst with
    | none => simp [peerSyncIter]
    | some t =>
      have h1 : ¬ now < t := by have := hle t rfl; omega
      simp [peerSyncIter, h1]

theorem peerSyncIter_pacing_witness :
    (0 : Int) < 100 ∧
    peerSyncIter 100 none 0 (some 100) =
      (some (0 + nsPerSec * (100 : Int) / 100),
       SendOutcome.sent
         (decide ((0 : Int) + nsPerSec * (100 : Int) / 100 - 0 ≤ 0))) :=
  ⟨by decide, (peerSyncIter_pacing 100 none 0 100 (by decide)).2.1 rfl⟩

/-- C9: once the running flag is false (after `Stop`), every reactor and
fast-sync callback is a no-op: the syncer state is unchanged, nothing is
delivered to the engine or woken, and `OnReceive` returns without an error. -/
theorem callbacks_noop_after_stop (env : RecvEnv) (s : syncerState)
    (eng : Nat) (id br : Nat) (hrun : s.running = false) :
    OnReceive env s eng = ⟨s, eng, [], false, none⟩ ∧
    OnFailure s = s ∧
    OnJoin s id = (s, []) ∧
    OnLeave s id = s ∧
    OnBlock s br = (s, []) ∧
    OnEnd s = s := by
  refine ⟨?_, rfl, ?_, ?_, ?_, ?_⟩ <;>
    simp [OnReceive, OnJoin, OnLeave, OnBlock, OnEnd, hrun]

theorem callbacks_noop_after_stop_witness :
    c9s.running = false ∧
    OnReceive c7Env c9s 0 = ⟨c9s, 0, [], false, none⟩ ∧
    OnEnd c9s = c9s :=
  ⟨rfl, (callbacks_noop_after_stop c7Env c9s 0 0 0 rfl).1,
   (callbacks_noop_after_stop c7Env c9s 0 0 0 rfl).2.2.2.2.2⟩

/-- C10: one `doSync` call for peer `i` mutates at most that peer's round
state and the syncer's fetch-cancel handle: the running flag, the timer, the
last-send timestamp, the peer-list length, every other peer's record, and
peer `i`'s identity and running flag are unchanged. -/
theorem doSyncFull_frame (env : DoSyncEnv) (s : syncerState) (i : Nat) :
    (doSyncFull env s i).running = s.running ∧
    (doSyncFull env s i).timer = s.timer ∧
    (doSyncFull env s i).lastSendTime = s.lastSendTime ∧
    (doSyncFull env s i).peers.length = s.peers.length ∧
    (∀ j, j ≠ i →
      (doSyncFull env s i).peers.getD j (newPeer 0) =
        s.peers.getD j (newPeer 0)) ∧
    ((doSyncFull env s i).peers.getD i (newPeer 0)).id =
      (s.peers.getD i (newPeer 0)).id ∧
    ((doSyncFull env s i).peers.getD i (newPeer 0)).running =
      (s.peers.getD i (newPeer 0)).running := by
  unfold doSyncFull
  cases hp : s.peers[i]? with
  | none => exact ⟨rfl, rfl, rfl, rfl, fun j _ => rfl, rfl, rfl⟩
  | some p =>
    have hi : i < s.peers.length := by
      by_contra hcon
      push_neg at hcon
      rw [List.getElem?_eq_none hcon] at hp
      cases hp
    have hgd : s.peers.getD i (newPeer 0) = p :=
      getD_eq_of_getElem? s.peers i p (newPeer 0) hp
    refine ⟨rfl, rfl, rfl, ?_, ?_, ?_, ?_⟩
    · simp [List.length_set]
    · intro j hj
      exact getD_set_of_ne s.peers i j _ (newPeer 0) (fun he => hj he.symm)
    · show ((s.peers.set i
          { p with prs := (doSync env p.prs s.fetchCanceler).prs }).getD i
            (newPeer 0)).id = (s.peers.getD i (newPeer 0)).id
      rw [getD_set_self_of_lt s.peers i _ (newPeer 0) hi, hgd]
    · show ((s.peers.set i
          { p with prs := (doSync env p.prs s.fetchCanceler).prs }).getD i
            (newPeer 0)).running = (s.peers.getD i (newPeer 0)).running
      rw [getD_set_self_of_lt s.peers i _ (newPeer 0) hi, hgd]

theorem doSyncFull_frame_witness :
    (doSyncFull w2Env c10s 0).running = c10s.running ∧
    (doSyncFull w2Env c10s 0).peers.getD 1 (newPeer 0) =
      c10s.peers.getD 1 (newPeer 0) ∧
    ((doSyncFull w2Env c10s 0).peers.getD 0 (newPeer 0)).id =
      (c10s.peers.getD 0 (newPeer 0)).id :=
  ⟨(doSyncFull_frame w2Env c10s 0).1,
   (doSyncFull_frame w2Env c10s 0).2.2.2.2.1 1 (by decide),
   (doSyncFull_frame w2Env c10s 0).2.2.2.2.2.1⟩

